import Mathlib

/-!
# Verification of the blockstack-core storage router (`blockstack_client/storage.py`)

A shallow embedding of the storage module: content hashing, raw ECDSA
sign/verify plumbing, the v2 signed mutable-data envelope codec, and the
immutable/mutable put/get routing loops over pluggable storage drivers.

Python 2 `str` values (byte strings) are modelled as `List Char` whose
characters have code points below 256.  External collaborators (fastecdsa,
keylib, hashlib, the `json` module, `blockstack_profiles`, network transport)
are modelled as explicit function parameters, bundled into oracle structures;
the module's own logic is translated line by line from the source.
-/

namespace Blockstack

/-- Model of a Python 2 `str` (a byte string). -/
abbrev Str := List Char

/-! ## Base64 (model of Python's `base64.b64encode` / `base64.b64decode`) -/

/-- The 64-character standard base64 alphabet. -/
def b64alphabet : Str :=
  "ABCDEFGHIJKLMNOPQRSTUVWXYZabcdefghijklmnopqrstuvwxyz0123456789+/".toList

/-- Character for a 6-bit value. -/
def b64c (n : Nat) : Char := b64alphabet.getD n 'A'

/-- Helper for `b64val`: position of a character in a list, or `none`. -/
def b64valAux : Str → Nat → Char → Option Nat
  | [], _, _ => none
  | a :: rest, i, c => if c = a then some i else b64valAux rest (i + 1) c

/-- Value (six bits) of a base64 alphabet character, `none` for other characters. -/
def b64val (c : Char) : Option Nat := b64valAux b64alphabet 0 c

/-- Standard base64 encoding of a byte list (bytes are `Nat`s below 256),
returning the encoded characters, with `=` padding. -/
def b64encodeList : List Nat → Str
  | [] => []
  | [a] => [b64c (a / 4), b64c (a % 4 * 16), '=', '=']
  | [a, b] => [b64c (a / 4), b64c (a % 4 * 16 + b / 16), b64c (b % 16 * 4), '=']
  | a :: b :: d :: rest =>
      b64c (a / 4) :: b64c (a % 4 * 16 + b / 16) :: b64c (b % 16 * 4 + d / 64) ::
        b64c (d % 64) :: b64encodeList rest

/-- Standard base64 decoding: processes four characters at a time and honours
`=` padding; any malformed input yields `none` (modelling the `binascii.Error`
raised by Python's `base64.b64decode`). -/
def b64decodeList : Str → Option (List Nat)
  | [] => some []
  | c1 :: c2 :: c3 :: c4 :: rest =>
    (b64val c1).bind fun v1 =>
    (b64val c2).bind fun v2 =>
    if c3 = '=' then
      if c4 = '=' ∧ rest = [] then some [v1 * 4 + v2 / 16] else none
    else
      (b64val c3).bind fun v3 =>
      if c4 = '=' then
        if rest = [] then some [v1 * 4 + v2 / 16, v2 % 16 * 16 + v3 / 4] else none
      else
        (b64val c4).bind fun v4 =>
        (b64decodeList rest).map fun tail =>
          (v1 * 4 + v2 / 16) :: (v2 % 16 * 16 + v3 / 4) :: (v3 % 4 * 64 + v4) :: tail
  | _ => none

/-- Byte values of a byte string. -/
def strBytes (s : Str) : List Nat := s.map Char.toNat

/-- Byte string from byte values. -/
def bytesToStr (l : List Nat) : Str := l.map Char.ofNat

/-- `base64.b64encode` on a byte string. -/
def b64encodeStr (s : Str) : Str := b64encodeList (strBytes s)

/-- `base64.b64decode` on a byte string (`none` models the raised error). -/
def b64decodeStr (s : Str) : Option Str := (b64decodeList s).map bytesToStr

theorem b64val_b64c : ∀ v : Nat, v < 64 → b64val (b64c v) = some v := by decide

theorem b64c_ne_pad : ∀ v : Nat, v < 64 → b64c v ≠ '=' := by decide

theorem b64c_toNat_lt : ∀ v : Nat, v < 64 → (b64c v).toNat < 256 := by decide

/-- Base64 decoding is a left inverse of encoding on byte lists. -/
theorem b64decode_b64encode :
    ∀ l : List Nat, (∀ b ∈ l, b < 256) → b64decodeList (b64encodeList l) = some l
  | [], _ => by simp [b64encodeList, b64decodeList]
  | [a], h => by
    have ha : a < 256 := h a (by simp)
    have h1 : a / 4 < 64 := by omega
    have h2 : a % 4 * 16 < 64 := by omega
    simp [b64encodeList, b64decodeList, b64val_b64c _ h1, b64val_b64c _ h2]
    omega
  | [a, b], h => by
    have ha : a < 256 := h a (by simp)
    have hb : b < 256 := h b (by simp)
    have h1 : a / 4 < 64 := by omega
    have h2 : a % 4 * 16 + b / 16 < 64 := by omega
    have h3 : b % 16 * 4 < 64 := by omega
    simp [b64encodeList, b64decodeList, b64val_b64c _ h1, b64val_b64c _ h2,
      b64val_b64c _ h3, b64c_ne_pad _ h3]
    omega
  | a :: b :: d :: rest, h => by
    have ha : a < 256 := h a (by simp)
    have hb : b < 256 := h b (by simp)
    have hd : d < 256 := h d (by simp)
    have h1 : a / 4 < 64 := by omega
    have h2 : a % 4 * 16 + b / 16 < 64 := by omega
    have h3 : b % 16 * 4 + d / 64 < 64 := by omega
    have h4 : d % 64 < 64 := by omega
    have ih : b64decodeList (b64encodeList rest) = some rest :=
      b64decode_b64encode rest (fun x hx => h x (by simp [hx]))
    simp [b64encodeList, b64decodeList, b64val_b64c _ h1, b64val_b64c _ h2,
      b64val_b64c _ h3, b64val_b64c _ h4, b64c_ne_pad _ h3, b64c_ne_pad _ h4, ih]
    omega

/-- Every character emitted by the base64 encoder is a 7-bit ASCII character. -/
theorem b64encode_ascii :
    ∀ l : List Nat, (∀ b ∈ l, b < 256) → ∀ c ∈ b64encodeList l, c.toNat < 256
  | [], _ => by simp [b64encodeList]
  | [a], h => by
    have ha : a < 256 := h a (by simp)
    simp only [b64encodeList, List.mem_cons]
    rintro c (rfl | rfl | rfl | rfl | hc)
    · exact b64c_toNat_lt _ (by omega)
    · exact b64c_toNat_lt _ (by omega)
    · decide
    · decide
    · simp at hc
  | [a, b], h => by
    have ha : a < 256 := h a (by simp)
    have hb : b < 256 := h b (by simp)
    simp only [b64encodeList, List.mem_cons]
    rintro c (rfl | rfl | rfl | rfl | hc)
    · exact b64c_toNat_lt _ (by omega)
    · exact b64c_toNat_lt _ (by omega)
    · exact b64c_toNat_lt _ (by omega)
    · decide
    · simp at hc
  | a :: b :: d :: rest, h => by
    have ha : a < 256 := h a (by simp)
    have hb : b < 256 := h b (by simp)
    have hd : d < 256 := h d (by simp)
    have ih := b64encode_ascii rest (fun x hx => h x (by simp [hx]))
    simp only [b64encodeList, List.mem_cons]
    rintro c (rfl | rfl | rfl | rfl | hc)
    · exact b64c_toNat_lt _ (by omega)
    · exact b64c_toNat_lt _ (by omega)
    · exact b64c_toNat_lt _ (by omega)
    · exact b64c_toNat_lt _ (by omega)
    · exact ih c hc

/-! ## Hex encoding (model of `'{:064x}'.format`, `.decode('hex')`,
`.encode('hex')` and `int(s, 16)`) -/

/-- Lowercase hex digit for a value below 16. -/
def hexDigit (n : Nat) : Char := "0123456789abcdef".toList.getD n '0'

/-- Value of a hex digit in either case, 0 for other characters (only applied
to hex digits in the translated code paths). -/
def hexVal (c : Char) : Nat :=
  if 48 ≤ c.toNat ∧ c.toNat ≤ 57 then c.toNat - 48
  else if 97 ≤ c.toNat ∧ c.toNat ≤ 102 then c.toNat - 87
  else if 65 ≤ c.toNat ∧ c.toNat ≤ 70 then c.toNat - 55
  else 0

/-- Is the character a hex digit (either case)? -/
def isHexChar (c : Char) : Bool :=
  (48 ≤ c.toNat ∧ c.toNat ≤ 57) ∨ (97 ≤ c.toNat ∧ c.toNat ≤ 102) ∨
    (65 ≤ c.toNat ∧ c.toNat ≤ 70)

/-- Numeric value of a hex string (big-endian). -/
def hexToNat (l : Str) : Nat := l.foldl (fun a c => a * 16 + hexVal c) 0

/-- Model of Python's `int(s, 16)`: `none` (an exception) unless the string is
a non-empty run of hex digits. -/
def hexToNat? (l : Str) : Option Nat :=
  if l ≠ [] ∧ l.all isHexChar then some (hexToNat l) else none

/-- Model of `'{:0wx}'.format(n)` for `n < 16 ^ w`: exactly `w` lowercase hex
digits, zero padded, big-endian. -/
def natToHexBE : Nat → Nat → Str
  | 0, _ => []
  | w + 1, n => natToHexBE w (n / 16) ++ [hexDigit (n % 16)]

/-- Model of `str.decode('hex')`: consume hex digits two at a time into bytes
(only applied to even-length hex strings in the translated code paths). -/
def hexDecodeBytes : Str → List Nat
  | h1 :: h2 :: rest => (hexVal h1 * 16 + hexVal h2) :: hexDecodeBytes rest
  | _ => []

/-- Two lowercase hex characters of a byte. -/
def byteToHexChars (b : Nat) : Str := [hexDigit (b / 16), hexDigit (b % 16)]

/-- Model of `str.encode('hex')`: lowercase hex of each byte. -/
def bytesToHexChars (l : List Nat) : Str := (l.map byteToHexChars).flatten

theorem hexVal_hexDigit : ∀ d : Nat, d < 16 → hexVal (hexDigit d) = d := by decide

theorem hexDigit_isHexChar : ∀ d : Nat, d < 16 → isHexChar (hexDigit d) = true := by decide

theorem hexVal_lt (c : Char) : hexVal c < 16 := by
  unfold hexVal
  split <;> [omega; split <;> [omega; split <;> omega]]

theorem length_natToHexBE : ∀ w n : Nat, (natToHexBE w n).length = w := by
  intro w
  induction w with
  | zero => intro n; rfl
  | succ k ih => intro n; simp [natToHexBE, ih]

theorem natToHexBE_digits :
    ∀ w n : Nat, ∀ c ∈ natToHexBE w n, ∃ d, d < 16 ∧ c = hexDigit d := by
  intro w
  induction w with
  | zero => intro n c hc; simp [natToHexBE] at hc
  | succ k ih =>
    intro n c hc
    simp only [natToHexBE, List.mem_append, List.mem_singleton] at hc
    rcases hc with hc | rfl
    · exact ih _ c hc
    · exact ⟨n % 16, by omega, rfl⟩

theorem hexToNat_append_digit (l : Str) (c : Char) :
    hexToNat (l ++ [c]) = hexToNat l * 16 + hexVal c := by
  simp [hexToNat, List.foldl_append]

/-- Base-16 digit decomposition of a remainder. -/
theorem mod_mul_base (n k : Nat) :
    n % (16 * 16 ^ k) = 16 * (n / 16 % 16 ^ k) + n % 16 := by
  have hpos : 0 < 16 ^ k := Nat.pos_pow_of_pos k (by norm_num)
  have hm : n / 16 % 16 ^ k < 16 ^ k := Nat.mod_lt _ hpos
  have hn : n % 16 < 16 := Nat.mod_lt _ (by norm_num)
  have e2 : n / 16 = 16 ^ k * (n / 16 / 16 ^ k) + n / 16 % 16 ^ k :=
    (Nat.div_add_mod _ _).symm
  have hsplit : n = 16 * (n / 16 % 16 ^ k) + n % 16 + 16 * 16 ^ k * (n / 16 / 16 ^ k) := by
    calc n = 16 * (n / 16) + n % 16 := by omega
    _ = 16 * (16 ^ k * (n / 16 / 16 ^ k) + n / 16 % 16 ^ k) + n % 16 := by rw [← e2]
    _ = 16 * (n / 16 % 16 ^ k) + n % 16 + 16 * 16 ^ k * (n / 16 / 16 ^ k) := by ring
  conv_lhs => rw [hsplit]
  rw [Nat.add_mul_mod_self_left]
  exact Nat.mod_eq_of_lt (by omega)

/-- Parsing a fixed-width hex rendering recovers the value modulo `16 ^ w`. -/
theorem hexToNat_natToHexBE : ∀ w n : Nat, hexToNat (natToHexBE w n) = n % 16 ^ w := by
  intro w
  induction w with
  | zero => intro n; simp [natToHexBE, hexToNat, Nat.mod_one]
  | succ k ih =>
    intro n
    rw [natToHexBE, hexToNat_append_digit, ih, hexVal_hexDigit _ (by omega)]
    rw [pow_succ']
    rw [mod_mul_base]
    omega

theorem hexToNat_natToHexBE_of_lt (w n : Nat) (h : n < 16 ^ w) :
    hexToNat (natToHexBE w n) = n := by
  rw [hexToNat_natToHexBE, Nat.mod_eq_of_lt h]

theorem hexDecodeBytes_append :
    ∀ l1 l2 : Str, l1.length % 2 = 0 →
      hexDecodeBytes (l1 ++ l2) = hexDecodeBytes l1 ++ hexDecodeBytes l2
  | [], _, _ => by simp [hexDecodeBytes]
  | [c], _, h => by simp at h
  | c1 :: c2 :: rest, l2, h => by
    simp only [List.length_cons] at h
    have ih := hexDecodeBytes_append rest l2 (by omega)
    simp [hexDecodeBytes, List.cons_append, List.append_eq, ih]

theorem length_hexDecodeBytes :
    ∀ l : Str, l.length % 2 = 0 → (hexDecodeBytes l).length = l.length / 2
  | [], _ => rfl
  | [c], h => by simp at h
  | c1 :: c2 :: rest, h => by
    simp only [List.length_cons] at *
    rw [hexDecodeBytes, List.length_cons, length_hexDecodeBytes rest (by omega)]
    omega

theorem hexDecodeBytes_lt :
    ∀ l : Str, ∀ b ∈ hexDecodeBytes l, b < 256
  | [] => by simp [hexDecodeBytes]
  | [c] => by simp [hexDecodeBytes]
  | c1 :: c2 :: rest => by
    intro b hb
    simp only [hexDecodeBytes, List.mem_cons] at hb
    rcases hb with rfl | hb
    · have := hexVal_lt c1; have := hexVal_lt c2; omega
    · exact hexDecodeBytes_lt rest b hb

/-- Re-encoding the bytes of an even-length lowercase hex string gives back
that string. -/
theorem bytesToHex_hexDecode :
    ∀ l : Str, l.length % 2 = 0 → (∀ c ∈ l, ∃ d, d < 16 ∧ c = hexDigit d) →
      bytesToHexChars (hexDecodeBytes l) = l
  | [], _, _ => rfl
  | [c], h, _ => by simp at h
  | c1 :: c2 :: rest, h, hd => by
    obtain ⟨d1, hd1, rfl⟩ := hd c1 (by simp)
    obtain ⟨d2, hd2, rfl⟩ := hd c2 (by simp)
    simp only [List.length_cons] at h
    have ih := bytesToHex_hexDecode rest (by omega) (fun c hc => hd c (by simp [hc]))
    simp only [hexDecodeBytes, bytesToHexChars, List.map_cons, List.flatten_cons,
      hexVal_hexDigit _ hd1, hexVal_hexDigit _ hd2]
    have e1 : (d1 * 16 + d2) / 16 = d1 := by omega
    have e2 : (d1 * 16 + d2) % 16 = d2 := by omega
    simp only [byteToHexChars, e1, e2]
    simpa [bytesToHexChars] using ih

/-! ## Byte-string / byte-list conversions -/

theorem char_toNat_ofNat (b : Nat) (h : b < 256) : (Char.ofNat b).toNat = b := by
  have hv : b.isValidChar := Or.inl (by omega)
  rw [Char.ofNat, dif_pos hv]
  rfl

theorem strBytes_bytesToStr (l : List Nat) (h : ∀ b ∈ l, b < 256) :
    strBytes (bytesToStr l) = l := by
  unfold strBytes bytesToStr
  rw [List.map_map]
  induction l with
  | nil => rfl
  | cons a rest ih =>
    simp only [List.map_cons, Function.comp_apply,
      char_toNat_ofNat a (h a (by simp))]
    rw [ih (fun b hb => h b (by simp [hb]))]

theorem bytesToStr_strBytes (s : Str) : bytesToStr (strBytes s) = s := by
  unfold strBytes bytesToStr
  rw [List.map_map]
  have hcomp : (Char.ofNat ∘ Char.toNat) = id := by
    funext c; exact Char.ofNat_toNat c
  simp [hcomp]

/-! ## Splitting (model of Python's `split(".", 2)`) -/

/-- Split off everything before the first occurrence of `c`, with the rest. -/
def splitFirst (c : Char) : Str → Option (Str × Str)
  | [] => none
  | x :: xs =>
    if x = c then some ([], xs)
    else (splitFirst c xs).map fun p => (x :: p.1, p.2)

/-- Model of Python's `s.split(".", 2)`: at most two splits. -/
def pySplitDot2 (s : Str) : List Str :=
  match splitFirst '.' s with
  | none => [s]
  | some (a, rest) =>
    match splitFirst '.' rest with
    | none => [a, rest]
    | some (b, rest2) => [a, b, rest2]

theorem splitFirst_append (c : Char) :
    ∀ a b : Str, c ∉ a → splitFirst c (a ++ c :: b) = some (a, b) := by
  intro a
  induction a with
  | nil => intro b _; simp [splitFirst]
  | cons x xs ih =>
    intro b hins
    have hx : x ≠ c := fun h => hins (by simp [h])
    have ihh := ih b (fun h => hins (by simp [h]))
    simp [splitFirst, hx, List.cons_append, List.append_eq, ihh]

/-- Splitting a well-formed three-field dotted string recovers the fields when
the first two fields contain no dot (the third may contain dots). -/
theorem pySplitDot2_fields (p s t : Str) (hp : '.' ∉ p) (hs : '.' ∉ s) :
    pySplitDot2 (p ++ '.' :: (s ++ '.' :: t)) = [p, s, t] := by
  simp [pySplitDot2, splitFirst_append '.' p (s ++ '.' :: t) hp,
    splitFirst_append '.' s t hs]

/-- Model of Python's `s.split(c)` (unlimited splits), accumulator-based. -/
def splitAllAux (c : Char) : Str → Str → List Str
  | [], acc => [acc.reverse]
  | x :: xs, acc =>
    if x = c then acc.reverse :: splitAllAux c xs [] else splitAllAux c xs (x :: acc)

/-- Model of Python's `s.split(c)` for a one-character separator. -/
def pySplitChar (c : Char) (s : Str) : List Str := splitAllAux c s []

/-! ## External collaborator oracles

The storage module calls into external libraries that are outside this
repository: `fastecdsa` (curve arithmetic), `hashlib`/`pybitcoin` (digests),
`keylib` (public-key formatting and addresses), the standard `json` module,
`blockstack_profiles` (legacy token envelopes) and the `keys`/`scripts`
helpers.  They are modelled as oracle structures of opaque total functions;
every theorem quantifies over them or instantiates them concretely. -/

/-- Oracle for the cryptographic collaborators (`fastecdsa`, `hashlib`,
`pybitcoin`, `keylib`).  `ecdsaSign` and `ecdsaVerify` model
`fastecdsa.ecdsa.sign` / `fastecdsa.ecdsa.verify` over secp256k1;
`isHexCompressed s` models `keylib.key_formatting.get_pubkey_format(s) ==
'hex_compressed'`; `decompressPub` models `keylib.key_formatting.decompress`;
`pubToAddr` models `keylib.public_key_to_address`; `addrToBinHash160` and
`binHash160ToAddr` model the `keylib.address_formatting` pair (the `Nat`
argument is the version byte); `sha256hex` models
`hashlib.sha256(x).hexdigest()` and `hexHash160` models
`pybitcoin.hex_hash160`. -/
structure CryptoOracle where
  ecdsaSign : Str → Nat → Nat × Nat
  ecdsaVerify : Nat × Nat → Str → Nat × Nat → Bool
  sha256hex : Str → Str
  hexHash160 : Str → Str
  isHexCompressed : Str → Bool
  decompressPub : Str → Str
  pubToAddr : Str → Str
  addrToBinHash160 : Str → Str
  binHash160ToAddr : Str → Nat → Str

/-- Oracle for the `json` module and `blockstack_profiles`, over an abstract
payload type `α`.  `dumps` models `json.dumps(x, sort_keys=True)`; `loads`
models `json.loads` with `none` for a raised `ValueError`; `loadsTokens`
models the legacy-path `json.loads` plus the `isinstance(x, (dict, list))`
assertion (`none` when either fails); `getProfileFromTokens` models
`blockstack_profiles.get_profile_from_tokens` with `none` for an empty
result; `profileSerialize` models the whole `profile=True` branch of
`serialize_mutable_data` (token signing, `del decodedToken`, dump). -/
structure JsonOracle (α : Type) where
  dumps : α → Str
  loads : Str → Option α
  loadsTokens : Str → Option Str
  getProfileFromTokens : Str → Str → Option α
  profileSerialize : α → Str → Except Unit Str

/-- Oracle for the `keys` and `scripts` helper modules:
`keys.is_singlesig`, `keys.get_pubkey_hex`, `scripts.is_name_valid`. -/
structure KeysOracle where
  is_singlesig : Str → Bool
  get_pubkey_hex : Str → Str
  is_name_valid : Str → Bool

/-- Order of the secp256k1 group (`fastecdsa.curve.secp256k1.q`). -/
def secp256k1q : Nat :=
  0xFFFFFFFFFFFFFFFFFFFFFFFFFFFFFFFEBAAEDCE6AF48A03BBFD25E8CD0364141

/-! ## Content hashing (`get_data_hash`, `get_blockchain_compat_hash`) -/

/-- Lines 66-74: hash over data for immutable storage (SHA-256 hexdigest). -/
def get_data_hash (C : CryptoOracle) (data_txt : Str) : Str := C.sha256hex data_txt

/-- Lines 85-91: blockchain-compatible hash (hash160 hexdigest). -/
def get_blockchain_compat_hash (C : CryptoOracle) (data_txt : Str) : Str :=
  C.hexHash160 data_txt

/-! ## Signer (`sign_raw_data`, lines 480-504) -/

/-- Lines 493-498: the raw ECDSA signature with low-S canonicalization applied:
if `sig_s * 2 >= q` then `sig_s` is replaced by `q - sig_s`. -/
def signRS (C : CryptoOracle) (raw_data : Str) (pk_i : Nat) : Nat × Nat :=
  let rs := C.ecdsaSign raw_data pk_i
  (rs.1, if rs.2 * 2 ≥ secp256k1q then secp256k1q - rs.2 else rs.2)

/-- Lines 480-504: `sign_raw_data`.  The private key is truncated when it
carries a compression-flag suffix (`assert priv[-2:] == '01'` modelled as a
raised fault otherwise); `int(priv, 16)` raises on non-hex input.  The
`'{:064x}{:064x}'.format(r, s).decode('hex')` step followed by
`assert len(sig_bin) == 64` is modelled by the equivalent guard
`r < 16 ^ 64 ∧ s < 16 ^ 64` (the zero-padded format has exactly 64 digits
per component precisely in that case), then hex-decoding the 128 digits. -/
def sign_raw_data (C : CryptoOracle) (raw_data privatekey_hex : Str) :
    Except Unit Str :=
  let priv0 := privatekey_hex
  let privOk : Except Unit Str :=
    if priv0.length > 64 then
      if priv0.drop (priv0.length - 2) = "01".toList then .ok (priv0.take 64)
      else .error ()
    else .ok priv0
  match privOk with
  | .error e => .error e
  | .ok priv =>
    match hexToNat? priv with
    | none => .error ()
    | some pk_i =>
      let rs := signRS C raw_data pk_i
      if rs.1 < 16 ^ 64 ∧ rs.2 < 16 ^ 64 then
        .ok (b64encodeList (hexDecodeBytes (natToHexBE 64 rs.1 ++ natToHexBE 64 rs.2)))
      else .error ()

/-! ## Verifier (`verify_raw_data`, lines 507-534) -/

/-- Lines 507-534: `verify_raw_data`.  The bare `assert len(pubk) == 130`,
the raising `base64.b64decode`, `assert len(sig_bin) == 64` and the raising
`int(x, 16)` calls are modelled as `Except` faults — none of them is caught
inside the function.  `sig_hex` is produced by `encode('hex')` so its slices
are always valid hex and are read back with `hexToNat`. -/
def verify_raw_data (C : CryptoOracle) (raw_data pubkey_hex sigb64 : Str) :
    Except Unit Bool :=
  let pubk :=
    if C.isHexCompressed pubkey_hex then C.decompressPub pubkey_hex else pubkey_hex
  if pubk.length = 130 then
    let _data_hash := get_data_hash C raw_data
    match b64decodeList sigb64 with
    | none => .error ()
    | some sig_bin =>
      if sig_bin.length = 64 then
        let sig_hex := bytesToHexChars sig_bin
        let sig_r := hexToNat (sig_hex.take 64)
        let sig_s := hexToNat (sig_hex.drop 64)
        let pubk_raw := pubk.drop 2
        match hexToNat? (pubk_raw.take 64), hexToNat? (pubk_raw.drop 64) with
        | some px, some py => .ok (C.ecdsaVerify (sig_r, sig_s) raw_data (px, py))
        | _, _ => .error ()
      else .error ()
  else .error ()

/-! ## Mutable envelope codec (lines 171-343) -/

/-- Modelled from the spec: the pattern `schemas.OP_BASE64_PATTERN_SECTION`
(line 222) lives in `schemas.py`, which is not under `src/`; the spec says the
signature field must match "an expected base64 shape", modelled as a run of
base64-alphabet characters and `=` padding characters. -/
def isB64Shape (s : Str) : Bool := s.all fun c => (b64val c).isSome || c = '='

/-- Line 218: the anchored regex `^[0-9a-fA-F]+$`. -/
def isHexRe (s : Str) : Bool := !s.isEmpty && s.all isHexChar

/-- Lines 171-197: `serialize_mutable_data`.  The `profile=True` branch is the
external token path (oracle); the v2 branch canonicalizes the payload, signs
the text, and emits `"bsk2." + pubkey_hex + "." + base64(sig) + "." + text`
where `sig` is the (already base64) string returned by `sign_raw_data`. -/
def serialize_mutable_data {α : Type} (C : CryptoOracle) (J : JsonOracle α)
    (data_json : α) (privatekey_hex pubkey_hex : Str) (profile : Bool) :
    Except Unit Str :=
  if profile then
    J.profileSerialize data_json privatekey_hex
  else
    let data_txt := J.dumps data_json
    match sign_raw_data C data_txt privatekey_hex with
    | .error e => .error e
    | .ok data_sig =>
      .ok ("bsk2.".toList ++ pubkey_hex ++ '.' :: (b64encodeStr data_sig ++ '.' :: data_txt))

/-- Lines 200-275: `parse_mutable_data_v2`.  Splits on `.` at most twice,
checks the public-key and signature fields, decompresses the embedded key if
compressed, base64-decodes the signature (a decode error returns `None`), then
tries the expected public key and, falling through, the expected public-key
hash; a verified payload is `json.loads`-parsed (whose failure would raise). -/
def parse_mutable_data_v2 {α : Type} (C : CryptoOracle) (J : JsonOracle α)
    (mutable_data_json_txt : Str) (public_key_hex : Option Str)
    (public_key_hash : Option Str) : Except Unit (Option α) :=
  match pySplitDot2 mutable_data_json_txt with
  | [pubk_hex0, sig_b64, data_txt] =>
    if ¬ isHexRe pubk_hex0 then .ok none
    else if ¬ isB64Shape sig_b64 then .ok none
    else
      let pubk_hex :=
        if C.isHexCompressed pubk_hex0 then C.decompressPub pubk_hex0 else pubk_hex0
      match b64decodeList sig_b64 with
      | none => .ok none
      | some sig_bin_bytes =>
        let sig_bin := bytesToStr sig_bin_bytes
        let tryPub : Except Unit (Option α) :=
          match public_key_hex with
          | none => .ok none
          | some gp0 =>
            let given_pubkey_hex :=
              if C.isHexCompressed gp0 then C.decompressPub gp0 else gp0
            if given_pubkey_hex = pubk_hex then
              match verify_raw_data C data_txt pubk_hex sig_bin with
              | .error e => .error e
              | .ok true =>
                match J.loads data_txt with
                | some v => .ok (some v)
                | none => .error ()
              | .ok false => .ok none
            else .ok none
        match tryPub with
        | .error e => .error e
        | .ok (some v) => .ok (some v)
        | .ok none =>
          match public_key_hash with
          | none => .ok none
          | some pkh =>
            let pubkey_hash := C.binHash160ToAddr (C.addrToBinHash160 pkh) 0
            if C.pubToAddr pubk_hex = pubkey_hash then
              match verify_raw_data C data_txt pubk_hex sig_bin with
              | .error e => .error e
              | .ok true =>
                match J.loads data_txt with
                | some v => .ok (some v)
                | none => .error ()
              | .ok false => .ok none
            else .ok none
  | _ => .ok none

/-- Lines 278-343: `parse_mutable_data`.  A `"bsk2."`-prefixed text is
stripped and routed to the v2 parser — the source passes
`public_key_hash=None` there (line 293), discarding the caller's hash.  The
legacy branch asserts at least one expected key, parses the token list, and
tries the public key then the hash-derived address. -/
def parse_mutable_data {α : Type} (C : CryptoOracle) (J : JsonOracle α)
    (mutable_data_json_txt : Str) (public_key : Option Str)
    (public_key_hash : Option Str) : Except Unit (Option α) :=
  if mutable_data_json_txt.take 5 = "bsk2.".toList then
    parse_mutable_data_v2 C J (mutable_data_json_txt.drop 5) public_key none
  else
    if public_key.isNone ∧ public_key_hash.isNone then .error ()
    else
      match J.loadsTokens mutable_data_json_txt with
      | none => .ok none
      | some mutable_data_jwt =>
        let tryPub : Option α :=
          match public_key with
          | none => none
          | some pk => J.getProfileFromTokens mutable_data_jwt pk
        match tryPub with
        | some v => .ok (some v)
        | none =>
          match public_key_hash with
          | none => .ok none
          | some pkh =>
            let public_key_hash_0 := C.binHash160ToAddr (C.addrToBinHash160 pkh) 0
            match J.getProfileFromTokens mutable_data_jwt public_key_hash_0 with
            | some v => .ok (some v)
            | none => .ok none

/-! ## Driver registry and the storage router -/

/-- A registered storage driver: its name (`__name__`) and the optional
capability methods used by the verified operations, each modelled as a
function whose `Except` error is a raised exception.  The driver-side handler
arguments follow the source call sites: `get_immutable_handler(data_hash,
data_id, zonefile, fqu)`, `put_immutable_handler(data_hash, data_text, txid)`,
`put_mutable_handler(fq_data_id, serialized_data, fqu)`. -/
structure Driver where
  name : Str
  get_immutable_handler :
    Option (Str → Option Str → Bool → Option Str → Except Unit (Option Str))
  put_immutable_handler : Option (Str → Str → Str → Except Unit Bool)
  put_mutable_handler : Option (Str → Str → Option Str → Except Unit Bool)

/-- Lines 397-405: the handler selection of `get_immutable_data` — all
registered handlers, or for a whitelist each requested name expanded to the
matching registered handlers, in whitelist order. -/
def selectHandlers (drivers : Option (List Str)) (storage_handlers : List Driver) :
    List Driver :=
  match drivers with
  | none => storage_handlers
  | some ds => (ds.map fun d => storage_handlers.filter fun h2 => h2.name = d).flatten

/-- Line 409: the iteration list `[data_url] + handlers_to_use`, with the
`None` placeholder already dropped (line 410-411). -/
def getImmCandidates (data_url : Option Str) (handlers : List Driver) :
    List (Str ⊕ Driver) :=
  (match data_url with | none => [] | some u => [Sum.inl u]) ++ handlers.map Sum.inr

/-- Lines 409-448: the per-candidate fetch of `get_immutable_data`.  A URL
candidate is fetched by generic transport (`urlFetch`; an exception yields no
data); a driver candidate yields no data when it lacks
`get_immutable_handler`, when the handler raises, or when it returns `None`. -/
def getImmFetch (urlFetch : Str → Except Unit Str) (data_hash : Str)
    (data_id : Option Str) (zonefile : Bool) (fqu : Option Str) :
    Str ⊕ Driver → Option Str
  | Sum.inl url =>
    match urlFetch url with
    | .error _ => none
    | .ok d => some d
  | Sum.inr handler =>
    match handler.get_immutable_handler with
    | none => none
    | some f =>
      match f data_hash data_id zonefile fqu with
      | .error _ => none
      | .ok d => d

/-- Lines 445-474 folded over the candidate list: the post-fetch validation of
`get_immutable_data` — no data continues; a hash mismatch discards the bytes
and continues; under `deserialize` an unparseable document continues; the
first surviving result is returned. -/
def getImmLoop (hashFn : Str → Str) (urlFetch : Str → Except Unit Str)
    (jsonLoads : Str → Option Str) (data_hash : Str) (data_id : Option Str)
    (zonefile : Bool) (fqu : Option Str) (deserialize : Bool) :
    List (Str ⊕ Driver) → Option Str
  | [] => none
  | c :: rest =>
    match getImmFetch urlFetch data_hash data_id zonefile fqu c with
    | none => getImmLoop hashFn urlFetch jsonLoads data_hash data_id zonefile fqu deserialize rest
    | some d =>
      if hashFn d ≠ data_hash then
        getImmLoop hashFn urlFetch jsonLoads data_hash data_id zonefile fqu deserialize rest
      else if deserialize then
        match jsonLoads d with
        | none => getImmLoop hashFn urlFetch jsonLoads data_hash data_id zonefile fqu deserialize rest
        | some dd => some dd
      else some d

/-- Lines 379-476: `get_immutable_data`.  With no registered handlers it
returns `None` immediately; otherwise it selects handlers (whitelist or all)
and runs the trial loop over `[data_url] + handlers_to_use`. -/
def get_immutable_data (hashFn : Str → Str) (urlFetch : Str → Except Unit Str)
    (jsonLoads : Str → Option Str) (data_hash : Str) (data_url : Option Str)
    (fqu data_id : Option Str) (zonefile : Bool) (deserialize : Bool)
    (drivers : Option (List Str)) (storage_handlers : List Driver) : Option Str :=
  if storage_handlers.length = 0 then none
  else
    getImmLoop hashFn urlFetch jsonLoads data_hash data_id zonefile fqu deserialize
      (getImmCandidates data_url (selectHandlers drivers storage_handlers))

/-- Lines 685-691: `serialize_immutable_data` — asserts dict-or-list (a raised
fault otherwise) and dumps with sorted keys; the payload and its JSON checks
are abstract (`isDictOrList`, `jsonDumpsSorted`). -/
def serialize_immutable_data (isDictOrList : Str → Bool) (jsonDumpsSorted : Str → Str)
    (data_json : Str) : Except Unit Str :=
  if isDictOrList data_json then .ok (jsonDumpsSorted data_json) else .error ()

/-- Lines 726-758: the driver loop of `put_immutable_data`.  A driver lacking
`put_immutable_handler` is fatal when required, else skipped; an exception is
fatal when required, else skipped; a `False` return only logs a miss (no
required check in the source); a `True` return counts a success.  After the
loop: `None` when zero successes, else the data hash. -/
def putImmLoop (data_hash data_text txid : Str) (required : List Str) :
    List Driver → Nat → Option Str
  | [], successes => if successes = 0 then none else some data_hash
  | handler :: rest, successes =>
    match handler.put_immutable_handler with
    | none =>
      if handler.name ∈ required then none
      else putImmLoop data_hash data_text txid required rest successes
    | some f =>
      match f data_hash data_text txid with
      | .error _ =>
        if handler.name ∈ required then none
        else putImmLoop data_hash data_text txid required rest successes
      | .ok rc =>
        if rc then putImmLoop data_hash data_text txid required rest (successes + 1)
        else putImmLoop data_hash data_text txid required rest successes

/-- Lines 694-758: `put_immutable_data`.  The `data_checks` assertion (raised
fault when violated), serialization of a JSON payload when no text is given,
hash computation when no hash is given, then the driver loop. -/
def put_immutable_data (C : CryptoOracle) (isDictOrList : Str → Bool)
    (jsonDumpsSorted : Str → Str) (data_json : Option Str) (txid : Str)
    (data_hash data_text : Option Str) (required : List Str)
    (storage_handlers : List Driver) : Except Unit (Option Str) :=
  let data_checks :=
    (data_hash.isNone && data_text.isNone && data_json.isSome) ||
      (data_hash.isSome && data_text.isSome)
  if data_checks then
    let dtextOk : Except Unit Str :=
      match data_text, data_json with
      | some t, _ => .ok t
      | none, some j => serialize_immutable_data isDictOrList jsonDumpsSorted j
      | none, none => .error ()
    match dtextOk with
    | .error e => .error e
    | .ok dtext =>
      let dhash :=
        match data_hash with
        | none => get_data_hash C dtext
        | some h2 => h2
      .ok (putImmLoop dhash dtext txid required storage_handlers 0)
  else .error ()

/-- Python distinguishes `return None` from `return False`; `put_mutable_data`
uses both, so its result is modelled by this type. -/
inductive PyBoolRet where
  | noneRet : PyBoolRet
  | boolRet : Bool → PyBoolRet
deriving DecidableEq

/-- Lines 954-958: `make_fq_data_id`. -/
def make_fq_data_id (name data_id : Str) : Str := name ++ ':' :: data_id

/-- Lines 961-971: `is_fq_data_id` — at least one `:` and a valid name before
the first `:`. -/
def is_fq_data_id (is_name_valid : Str → Bool) (fq_data_id : Str) : Bool :=
  if (pySplitChar ':' fq_data_id).length < 2 then false
  else is_name_valid ((pySplitChar ':' fq_data_id).headD [])

/-- Lines 801-836: the driver loop of `put_mutable_data`.  A driver lacking
`put_mutable_handler` is fatal (`return None`) when required, else skipped;
then a capable driver not in a non-empty `use_only` is skipped; an exception
or a `False` return is fatal when required, else a miss; a `True` return
counts a success.  After the loop: `successes > 0`. -/
def putMutLoop (fq_data_id serialized_data : Str) (fqu : Option Str)
    (required use_only : List Str) : List Driver → Nat → PyBoolRet
  | [], successes => .boolRet (successes > 0)
  | handler :: rest, successes =>
    match handler.put_mutable_handler with
    | none =>
      if handler.name ∈ required then .noneRet
      else putMutLoop fq_data_id serialized_data fqu required use_only rest successes
    | some f =>
      if use_only.length > 0 ∧ handler.name ∉ use_only then
        putMutLoop fq_data_id serialized_data fqu required use_only rest successes
      else
        match f fq_data_id serialized_data fqu with
        | .error _ =>
          if handler.name ∈ required then .noneRet
          else putMutLoop fq_data_id serialized_data fqu required use_only rest successes
        | .ok rc =>
          if rc then
            putMutLoop fq_data_id serialized_data fqu required use_only rest (successes + 1)
          else if handler.name ∈ required then .noneRet
          else putMutLoop fq_data_id serialized_data fqu required use_only rest successes

/-- Lines 761-839: `put_mutable_data`.  Multisig private keys are rejected
with `False` before any serialization or driver contact; the envelope is
serialized once and the loop replicates it. -/
def put_mutable_data {α : Type} (C : CryptoOracle) (J : JsonOracle α)
    (K : KeysOracle) (fq_data_id : Str) (data_json : α) (privatekey_hex : Str)
    (profile : Bool) (required use_only : List Str)
    (storage_handlers : List Driver) : Except Unit PyBoolRet :=
  if ¬ K.is_singlesig privatekey_hex then .ok (.boolRet false)
  else
    let pubkey_hex := K.get_pubkey_hex privatekey_hex
    let fqu : Option Str :=
      if is_fq_data_id K.is_name_valid fq_data_id then
        some ((pySplitChar ':' fq_data_id).headD [])
      else if K.is_name_valid fq_data_id then some fq_data_id
      else none
    match serialize_mutable_data C J data_json privatekey_hex pubkey_hex profile with
    | .error e => .error e
    | .ok serialized_data =>
      .ok (putMutLoop fq_data_id serialized_data fqu required use_only storage_handlers 0)

/-! ## Signature encoding helper lemmas -/

/-- The hex rendering of an `r||s` pair re-surfaces unchanged after the
byte-level round trip through `decode('hex')` and `encode('hex')`. -/
theorem sighex_roundtrip (r s : Nat) :
    bytesToHexChars (hexDecodeBytes (natToHexBE 64 r ++ natToHexBE 64 s)) =
      natToHexBE 64 r ++ natToHexBE 64 s := by
  apply bytesToHex_hexDecode
  · rw [List.length_append, length_natToHexBE, length_natToHexBE]
  · intro c hc
    rcases List.mem_append.1 hc with h | h
    · exact natToHexBE_digits _ _ c h
    · exact natToHexBE_digits _ _ c h

theorem siglen_64 (r s : Nat) :
    (hexDecodeBytes (natToHexBE 64 r ++ natToHexBE 64 s)).length = 64 := by
  rw [length_hexDecodeBytes, List.length_append, length_natToHexBE, length_natToHexBE]
  rw [List.length_append, length_natToHexBE, length_natToHexBE]

theorem sighex_take (r s : Nat) :
    (natToHexBE 64 r ++ natToHexBE 64 s).take 64 = natToHexBE 64 r :=
  List.take_left' (length_natToHexBE 64 r)

theorem sighex_drop (r s : Nat) :
    (natToHexBE 64 r ++ natToHexBE 64 s).drop 64 = natToHexBE 64 s :=
  List.drop_left' (length_natToHexBE 64 r)

/-- `sign_raw_data` on a short hex private key: the exact emitted string. -/
theorem sign_raw_data_eq (C : CryptoOracle) (raw priv : Str) (pk_i : Nat)
    (hlen : ¬ priv.length > 64) (hpk : hexToNat? priv = some pk_i)
    (hr : (signRS C raw pk_i).1 < 16 ^ 64) (hs : (signRS C raw pk_i).2 < 16 ^ 64) :
    sign_raw_data C raw priv =
      .ok (b64encodeList (hexDecodeBytes
        (natToHexBE 64 (signRS C raw pk_i).1 ++ natToHexBE 64 (signRS C raw pk_i).2))) := by
  unfold sign_raw_data
  dsimp only
  rw [if_neg hlen]
  dsimp only
  rw [hpk]
  dsimp only
  rw [if_pos ⟨hr, hs⟩]

/-- Inversion of `sign_raw_data`: a successful result is the base64 of the
hex-decoded fixed-width rendering of the canonicalized pair. -/
theorem sign_raw_data_ok_elim (C : CryptoOracle) (raw priv sig : Str)
    (h : sign_raw_data C raw priv = .ok sig) :
    ∃ pk_i, (signRS C raw pk_i).1 < 16 ^ 64 ∧ (signRS C raw pk_i).2 < 16 ^ 64 ∧
      sig = b64encodeList (hexDecodeBytes
        (natToHexBE 64 (signRS C raw pk_i).1 ++ natToHexBE 64 (signRS C raw pk_i).2)) := by
  unfold sign_raw_data at h
  dsimp only at h
  by_cases hl : priv.length > 64
  · rw [if_pos hl] at h
    by_cases h01 : priv.drop (priv.length - 2) = "01".toList
    · rw [if_pos h01] at h
      dsimp only at h
      cases hpk : hexToNat? (priv.take 64) with
      | none => rw [hpk] at h; simp at h
      | some pk =>
        rw [hpk] at h
        dsimp only at h
        by_cases hb : (signRS C raw pk).1 < 16 ^ 64 ∧ (signRS C raw pk).2 < 16 ^ 64
        · rw [if_pos hb] at h
          injection h with h2
          exact ⟨pk, hb.1, hb.2, h2.symm⟩
        · rw [if_neg hb] at h; simp at h
    · rw [if_neg h01] at h; simp at h
  · rw [if_neg hl] at h
    dsimp only at h
    cases hpk : hexToNat? priv with
    | none => rw [hpk] at h; simp at h
    | some pk =>
      rw [hpk] at h
      dsimp only at h
      by_cases hb : (signRS C raw pk).1 < 16 ^ 64 ∧ (signRS C raw pk).2 < 16 ^ 64
      · rw [if_pos hb] at h
        injection h with h2
        exact ⟨pk, hb.1, hb.2, h2.symm⟩
      · rw [if_neg hb] at h; simp at h

/-- The canonicalized `s` component is never above half the group order. -/
theorem signRS_snd_le (C : CryptoOracle) (raw : Str) (pk_i : Nat) :
    (signRS C raw pk_i).2 ≤ secp256k1q / 2 := by
  show (if (C.ecdsaSign raw pk_i).2 * 2 ≥ secp256k1q then
      secp256k1q - (C.ecdsaSign raw pk_i).2
    else (C.ecdsaSign raw pk_i).2) ≤ secp256k1q / 2
  generalize (C.ecdsaSign raw pk_i).2 = s
  unfold secp256k1q
  split <;> omega

/-! ## Concrete fixtures used by witnesses and counterexamples -/

/-- A concrete crypto oracle: signatures are the constant pair `(1, 1)` and
verification always succeeds; keys are never compressed; all keys map to the
address `"ADDR"` and address conversions are the identity. -/
def testCrypto : CryptoOracle where
  ecdsaSign := fun _ _ => (1, 1)
  ecdsaVerify := fun _ _ _ => true
  sha256hex := fun _ => "deadbeef".toList
  hexHash160 := fun _ => "cafe".toList
  isHexCompressed := fun _ => false
  decompressPub := fun s => s
  pubToAddr := fun _ => "ADDR".toList
  addrToBinHash160 := fun s => s
  binHash160ToAddr := fun s _ => s

/-- A concrete JSON oracle over `Nat` payloads: the only document is `"42"`,
denoting the payload `42`. -/
def testJson : JsonOracle Nat where
  dumps := fun _ => "42".toList
  loads := fun s => if s = "42".toList then some 42 else none
  loadsTokens := fun _ => none
  getProfileFromTokens := fun _ _ => none
  profileSerialize := fun _ _ => .error ()

/-- A concrete keys oracle: every key is single-signature, no name is valid. -/
def testKeys : KeysOracle where
  is_singlesig := fun _ => true
  get_pubkey_hex := fun _ => "04".toList ++ List.replicate 128 '0'
  is_name_valid := fun _ => false

/-- A concrete uncompressed public key: `04` followed by 128 zeros. -/
def testPub : Str := "04".toList ++ List.replicate 128 '0'

/-! ## Claim theorems -/

set_option maxRecDepth 40000 in
set_option maxHeartbeats 1000000 in
/-- C2 (code bug): the claim says a malformed signature or public key makes
`verify_raw_data` return `False`; the code instead hits a bare `assert`
(`len(sig_bin) == 64`, line 524) and raises.  Evaluated at a well-formed
130-character public key and the signature `"AA=="` (one byte after base64
decoding), the embedded function faults instead of returning a boolean. -/
theorem C2_verify_asserts_on_malformed_sig :
    verify_raw_data testCrypto "x".toList testPub "AA==".toList = .error () := by
  rfl

/-- Extraction of the `s` component back out of an encoded signature. -/
theorem sig_s_extract (r s : Nat) (hs : s < 16 ^ 64) :
    hexToNat ((bytesToHexChars ((b64decodeList (b64encodeList (hexDecodeBytes
      (natToHexBE 64 r ++ natToHexBE 64 s)))).getD [])).drop 64) = s := by
  rw [b64decode_b64encode _ (hexDecodeBytes_lt _), Option.getD_some,
    sighex_roundtrip, sighex_drop, hexToNat_natToHexBE_of_lt _ _ hs]

set_option maxRecDepth 40000 in
/-- C8: every signature emitted by `sign_raw_data` is low-S canonical — the
`s` component encoded in the second 32 bytes of its base64 output is at most
`curve_order / 2` (if the raw `s` exceeds `curve_order / 2` the code replaces
it with `curve_order - s` before encoding). -/
theorem C8_low_s (C : CryptoOracle) (raw priv sig : Str)
    (h : sign_raw_data C raw priv = .ok sig) :
    hexToNat ((bytesToHexChars ((b64decodeList sig).getD [])).drop 64) ≤
      secp256k1q / 2 := by
  obtain ⟨pk_i, hr, hs, hsig⟩ := sign_raw_data_ok_elim C raw priv sig h
  rw [hsig, sig_s_extract _ _ hs]
  exact signRS_snd_le C raw pk_i

set_option maxRecDepth 40000 in
set_option maxHeartbeats 1000000 in
/-- Witness for C8 at a concrete signing call. -/
theorem C8_low_s_witness :
    hexToNat ((bytesToHexChars ((b64decodeList (b64encodeList (hexDecodeBytes
      (natToHexBE 64 1 ++ natToHexBE 64 1)))).getD [])).drop 64) ≤
      secp256k1q / 2 :=
  C8_low_s testCrypto "m".toList "01".toList
    (b64encodeList (hexDecodeBytes (natToHexBE 64 1 ++ natToHexBE 64 1))) rfl

set_option maxRecDepth 100000 in
set_option maxHeartbeats 4000000 in
/-- C1 (code bug): the claim says `decode(text, None, expected_pubkey_hash)`
verifies a v2 envelope through the hash-derived address; but
`parse_mutable_data` (line 293) passes `public_key_hash=None` to
`parse_mutable_data_v2`, so the hash path is unreachable through the
dispatcher.  At a concrete envelope whose hash path verifies, the v2 parser
alone returns the payload while the dispatcher returns `None`. -/
theorem C1_dispatch_drops_pubkey_hash :
    parse_mutable_data testCrypto testJson
        ("bsk2.".toList ++ (testPub ++ '.' ::
          (b64encodeStr (b64encodeList (List.replicate 64 0)) ++ '.' :: "42".toList)))
        none (some "ADDR".toList) = .ok none ∧
    parse_mutable_data_v2 testCrypto testJson
        (testPub ++ '.' ::
          (b64encodeStr (b64encodeList (List.replicate 64 0)) ++ '.' :: "42".toList))
        none (some "ADDR".toList) = .ok (some 42) := by
  constructor
  · rfl
  · rfl

/-! ## Driver-loop lemmas and fixtures for the put routers -/

/-- One loop step of `put_mutable_data` skips a capable driver excluded by a
non-empty `use_only`, regardless of `required` and of the handler's result. -/
theorem putMutLoop_skip_head (fq ser : Str) (fqu : Option Str)
    (required use_only : List Str) (handler : Driver)
    (f : Str → Str → Option Str → Except Unit Bool) (rest : List Driver)
    (succ : Nat) (hcap : handler.put_mutable_handler = some f)
    (huo : use_only ≠ []) (hnm : handler.name ∉ use_only) :
    putMutLoop fq ser fqu required use_only (handler :: rest) succ =
      putMutLoop fq ser fqu required use_only rest succ := by
  have hlen : use_only.length > 0 := by
    cases use_only with
    | nil => exact absurd rfl huo
    | cons a t => simp
  conv_lhs => rw [putMutLoop]
  rw [hcap]
  dsimp only
  rw [if_pos ⟨hlen, hnm⟩]

/-- The skip holds at any position in the driver list. -/
theorem putMutLoop_skip_middle (fq ser : Str) (fqu : Option Str)
    (required use_only : List Str) (handler : Driver)
    (f : Str → Str → Option Str → Except Unit Bool) (post : List Driver)
    (hcap : handler.put_mutable_handler = some f)
    (huo : use_only ≠ []) (hnm : handler.name ∉ use_only) :
    ∀ (pre : List Driver) (succ : Nat),
      putMutLoop fq ser fqu required use_only (pre ++ handler :: post) succ =
        putMutLoop fq ser fqu required use_only (pre ++ post) succ := by
  intro pre
  induction pre with
  | nil =>
    intro succ
    exact putMutLoop_skip_head fq ser fqu required use_only handler f post succ
      hcap huo hnm
  | cons d t ih =>
    intro succ
    simp only [List.cons_append]
    unfold putMutLoop
    cases hc : d.put_mutable_handler with
    | none =>
      by_cases hreq : d.name ∈ required
      · simp [hreq]
      · simp [hreq, ih]
    | some f2 =>
      by_cases huo2 : use_only.length > 0 ∧ d.name ∉ use_only
      · simp [huo2, ih]
      · cases hcall : f2 fq ser fqu with
        | error e =>
          by_cases hreq : d.name ∈ required
          · simp [huo2, hcall, hreq]
          · simp [huo2, hcall, hreq, ih]
        | ok rc =>
          cases rc with
          | true => simp [huo2, hcall, ih]
          | false =>
            by_cases hreq : d.name ∈ required
            · simp [huo2, hcall, hreq]
            · simp [huo2, hcall, hreq, ih]

/-- Did this driver's `put_immutable_handler` call return `True`? -/
def putImmDriverSucceeds (dh dt tx : Str) (d : Driver) : Bool :=
  match d.put_immutable_handler with
  | none => false
  | some f =>
    match f dh dt tx with
    | .ok true => true
    | _ => false

/-- With an empty `required` list, the immutable put loop returns the hash
exactly when the running count is positive or some remaining driver's put
returns `True`. -/
theorem putImmLoop_no_required (dh dt tx : Str) :
    ∀ (l : List Driver) (succ : Nat),
      putImmLoop dh dt tx [] l succ =
        if 0 < succ ∨ ∃ d ∈ l, putImmDriverSucceeds dh dt tx d = true then some dh
        else none := by
  intro l
  induction l with
  | nil =>
    intro succ
    unfold putImmLoop
    by_cases h0 : succ = 0
    · simp [h0]
    · simp [h0, Nat.pos_of_ne_zero h0]
  | cons d t ih =>
    intro succ
    unfold putImmLoop
    cases hc : d.put_immutable_handler with
    | none => simp [putImmDriverSucceeds, hc, ih]
    | some f =>
      cases hcall : f dh dt tx with
      | error e => simp [putImmDriverSucceeds, hc, hcall, ih]
      | ok rc =>
        cases rc with
        | true =>
          simp only [hc, hcall, if_pos rfl]
          rw [ih]
          have hsucc : putImmDriverSucceeds dh dt tx d = true := by
            simp [putImmDriverSucceeds, hc, hcall]
          simp [hsucc, Nat.succ_pos]
        | false => simp [putImmDriverSucceeds, hc, hcall, ih]

/-- Is this driver a fatal case for `put_immutable_data`: required, and either
lacking the put capability or raising from its put call? -/
def putImmRequiredFatal (dh dt tx : Str) (required : List Str) (d : Driver) : Prop :=
  d.name ∈ required ∧
    match d.put_immutable_handler with
    | none => True
    | some f => ∃ e, f dh dt tx = .error e

/-- A fatal required driver anywhere in the list forces the immutable put
loop to return `None`, whatever the other drivers do. -/
theorem putImmLoop_fatal (dh dt tx : Str) (required : List Str) :
    ∀ (l : List Driver) (succ : Nat),
      (∃ d ∈ l, putImmRequiredFatal dh dt tx required d) →
        putImmLoop dh dt tx required l succ = none := by
  intro l
  induction l with
  | nil => intro succ h; simp at h
  | cons d t ih =>
    intro succ h
    unfold putImmLoop
    rcases h with ⟨d2, hd2, hfat⟩
    rcases List.mem_cons.1 hd2 with rfl | hmem
    · rcases hfat with ⟨hreq, hbad⟩
      cases hc : d2.put_immutable_handler with
      | none => simp [hc, hreq]
      | some f =>
        rw [hc] at hbad
        obtain ⟨e, he⟩ := hbad
        simp [hc, he, hreq]
    · cases hc : d.put_immutable_handler with
      | none =>
        by_cases hreq : d.name ∈ required
        · simp [hc, hreq]
        · simp only [hc, if_neg hreq]
          exact ih _ ⟨d2, hmem, hfat⟩
      | some f =>
        cases hcall : f dh dt tx with
        | error e =>
          by_cases hreq : d.name ∈ required
          · simp [hc, hcall, hreq]
          · simp only [hc, hcall, if_neg hreq]
            exact ih _ ⟨d2, hmem, hfat⟩
        | ok rc =>
          cases rc with
          | true => simp only [hc, hcall, if_pos rfl]; exact ih _ ⟨d2, hmem, hfat⟩
          | false =>
            simp only [hc, hcall, if_neg (by decide : ¬ (false = true))]
            exact ih _ ⟨d2, hmem, hfat⟩

/-- A driver whose immutable put always reports failure (`False`). -/
def drvPutFalse : Driver where
  name := "A".toList
  get_immutable_handler := none
  put_immutable_handler := some fun _ _ _ => .ok false
  put_mutable_handler := none

/-- A driver whose immutable put always reports success (`True`). -/
def drvPutTrue : Driver where
  name := "B".toList
  get_immutable_handler := none
  put_immutable_handler := some fun _ _ _ => .ok true
  put_mutable_handler := none

/-- A driver named `"A"` with no capabilities at all. -/
def drvNoCap : Driver where
  name := "A".toList
  get_immutable_handler := none
  put_immutable_handler := none
  put_mutable_handler := none

/-- C3 counterexample: the claim says a required driver whose put call
returns `False` forces total failure (`None`); but the source (lines 751-755)
only counts a `False` return as a miss without consulting `required`, so with
required driver `"A"` returning `False` and driver `"B"` succeeding, the call
returns the hash, not `None`. -/
theorem C3_counterexample :
    put_immutable_data testCrypto (fun _ => true) (fun s => s) none "tx".toList
        (some "h".toList) (some "t".toList) ["A".toList] [drvPutFalse, drvPutTrue] =
      .ok (some "h".toList) ∧
    (Except.ok (some "h".toList) : Except Unit (Option Str)) ≠ .ok none := by
  constructor
  · rfl
  · intro hcontra
    exact Option.noConfusion (Except.ok.inj hcontra)

/-- C3 (amended): a required driver that lacks `put_immutable_handler` or
whose put call raises forces `put_immutable_data` to return `None`, even when
another driver succeeds; a required driver whose put call merely returns
`False` is only counted as a miss. -/
theorem C3_required_escalation (C : CryptoOracle) (idl : Str → Bool)
    (jds : Str → Str) (data_json : Option Str) (txid dh dt : Str)
    (required : List Str) (drivers : List Driver)
    (hfatal : ∃ d ∈ drivers, putImmRequiredFatal dh dt txid required d) :
    put_immutable_data C idl jds data_json txid (some dh) (some dt) required
      drivers = .ok none := by
  show Except.ok (putImmLoop dh dt txid required drivers 0) = .ok none
  rw [putImmLoop_fatal dh dt txid required drivers 0 hfatal]

/-- Witness for the amended C3: required capability-less driver `"A"` plus a
succeeding driver `"B"` still yields `None`. -/
theorem C3_required_escalation_witness :
    put_immutable_data testCrypto (fun _ => true) (fun s => s) none "tx".toList
        (some "h".toList) (some "t".toList) ["A".toList] [drvNoCap, drvPutTrue] =
      .ok none :=
  C3_required_escalation testCrypto (fun _ => true) (fun s => s) none "tx".toList
    "h".toList "t".toList ["A".toList] [drvNoCap, drvPutTrue]
    ⟨drvNoCap, List.mem_cons_self drvNoCap _, by decide, trivial⟩

/-- C6: with an empty `required` set, `put_immutable_data` returns the data
hash precisely when at least one driver's `put_immutable_handler` call
returns `True`, and `None` exactly when zero drivers succeed. -/
theorem C6_best_effort_success (C : CryptoOracle) (idl : Str → Bool)
    (jds : Str → Str) (data_json : Option Str) (txid dh dt : Str)
    (drivers : List Driver) :
    put_immutable_data C idl jds data_json txid (some dh) (some dt) [] drivers =
      .ok (if ∃ d ∈ drivers, putImmDriverSucceeds dh dt txid d = true then some dh
        else none) := by
  show Except.ok (putImmLoop dh dt txid [] drivers 0) = _
  rw [putImmLoop_no_required]
  simp

/-- C10: in `put_mutable_data` with a non-empty `use_only` list, a driver
that has `put_mutable_handler` but is not named in `use_only` is skipped —
never written to and never causing failure — even when its name is in
`required`: removing it from the driver list leaves the result unchanged for
every handler behaviour `f`. -/
theorem C10_use_only_overrides_required {α : Type} (C : CryptoOracle)
    (J : JsonOracle α) (K : KeysOracle) (fq : Str) (dj : α) (priv : Str)
    (profile : Bool) (required use_only : List Str) (pre post : List Driver)
    (handler : Driver) (f : Str → Str → Option Str → Except Unit Bool)
    (hcap : handler.put_mutable_handler = some f)
    (huo : use_only ≠ []) (hnm : handler.name ∉ use_only) :
    put_mutable_data C J K fq dj priv profile required use_only
        (pre ++ handler :: post) =
      put_mutable_data C J K fq dj priv profile required use_only (pre ++ post) := by
  unfold put_mutable_data
  cases hss : K.is_singlesig priv with
  | false => simp [hss]
  | true =>
    simp only [hss, not_true, if_false]
    cases hser :
        serialize_mutable_data C J dj priv (K.get_pubkey_hex priv) profile with
    | error e => simp [hser]
    | ok sd =>
      simp only [hser]
      rw [putMutLoop_skip_middle fq sd _ required use_only handler f post
        hcap huo hnm pre 0]

/-- A driver named `"A"` whose mutable put always reports success. -/
def drvMutA : Driver where
  name := "A".toList
  get_immutable_handler := none
  put_immutable_handler := none
  put_mutable_handler := some fun _ _ _ => .ok true

/-- A driver named `"B"` whose mutable put always reports success. -/
def drvMutB : Driver where
  name := "B".toList
  get_immutable_handler := none
  put_immutable_handler := none
  put_mutable_handler := some fun _ _ _ => .ok true

/-- Witness for C10: dropping the excluded capable driver `"A"` — even while
`"A"` is in `required` — does not change the outcome. -/
theorem C10_use_only_overrides_required_witness :
    put_mutable_data testCrypto testJson testKeys "id".toList (42 : Nat)
        "01".toList false ["A".toList] ["X".toList] ([] ++ drvMutA :: [drvMutB]) =
      put_mutable_data testCrypto testJson testKeys "id".toList (42 : Nat)
        "01".toList false ["A".toList] ["X".toList] ([] ++ [drvMutB]) :=
  C10_use_only_overrides_required testCrypto testJson testKeys "id".toList 42
    "01".toList false ["A".toList] ["X".toList] [] [drvMutB] drvMutA
    (fun _ _ _ => .ok true) rfl (by simp) (by decide)

/-! ## Immutable get: hash integrity and trial order -/

/-- Any value the trial loop returns descends from fetched bytes whose
recomputed hash equals the requested hash. -/
theorem getImmLoop_hash_integrity (hashFn : Str → Str)
    (urlFetch : Str → Except Unit Str) (jsonLoads : Str → Option Str)
    (data_hash : Str) (data_id : Option Str) (zonefile : Bool)
    (fqu : Option Str) (deserialize : Bool) :
    ∀ (cands : List (Str ⊕ Driver)) (v : Str),
      getImmLoop hashFn urlFetch jsonLoads data_hash data_id zonefile fqu
        deserialize cands = some v →
      ∃ d : Str, hashFn d = data_hash ∧
        (if deserialize then jsonLoads d = some v else v = d) := by
  intro cands
  induction cands with
  | nil => intro v h; simp [getImmLoop] at h
  | cons c rest ih =>
    intro v h
    unfold getImmLoop at h
    cases hf : getImmFetch urlFetch data_hash data_id zonefile fqu c with
    | none => rw [hf] at h; dsimp only at h; exact ih v h
    | some d =>
      rw [hf] at h
      dsimp only at h
      by_cases hh : hashFn d = data_hash
      · rw [if_neg (not_not_intro hh)] at h
        by_cases hdes : deserialize = true
        · rw [if_pos hdes] at h
          cases hj : jsonLoads d with
          | none => rw [hj] at h; dsimp only at h; exact ih v h
          | some dd =>
            rw [hj] at h
            dsimp only at h
            refine ⟨d, hh, ?_⟩
            rw [if_pos hdes, hj]
            exact h
        · rw [if_neg hdes] at h
          refine ⟨d, hh, ?_⟩
          rw [if_neg hdes]
          exact (Option.some.inj h).symm
      · rw [if_pos hh] at h
        exact ih v h

/-- C5: `get_immutable_data` never surfaces bytes whose recomputed hash
differs from the requested hash — every returned value descends from fetched
data `d` with `hash_func d = data_hash` (without deserialization the value is
`d` itself; with it, the value is `d` parsed); mismatching candidates are
discarded and `None` is preferred to mismatched data. -/
theorem C5_hash_integrity (hashFn : Str → Str) (urlFetch : Str → Except Unit Str)
    (jsonLoads : Str → Option Str) (data_hash : Str) (data_url : Option Str)
    (fqu data_id : Option Str) (zonefile deserialize : Bool)
    (drivers : Option (List Str)) (storage_handlers : List Driver) (v : Str)
    (h : get_immutable_data hashFn urlFetch jsonLoads data_hash data_url fqu
      data_id zonefile deserialize drivers storage_handlers = some v) :
    ∃ d : Str, hashFn d = data_hash ∧
      (if deserialize then jsonLoads d = some v else v = d) := by
  unfold get_immutable_data at h
  split at h
  · exact absurd h (by simp)
  · exact getImmLoop_hash_integrity hashFn urlFetch jsonLoads data_hash data_id
      zonefile fqu deserialize _ v h

/-- A driver whose immutable get always returns the bytes `"D"`. -/
def drvGetD : Driver where
  name := "G".toList
  get_immutable_handler := some fun _ _ _ _ => .ok (some "D".toList)
  put_immutable_handler := none
  put_mutable_handler := none

/-- Witness for C5 at a concrete configuration that returns data. -/
theorem C5_hash_integrity_witness :
    ∃ d : Str, (fun _ : Str => "H".toList) d = "H".toList ∧
      "D".toList = d :=
  C5_hash_integrity (fun _ => "H".toList) (fun _ => .error ()) (fun _ => none)
    "H".toList none none none false false none [drvGetD] "D".toList rfl

/-- Modelled from the spec (§4.5 `get_immutable`): the outcome of trying a
single candidate — fetch bytes, require hash equality, optionally parse.
Written from the spec's words as the comparison point for the C9 refinement
theorem; it reuses `getImmFetch` for the driver-side I/O dispatch. -/
def specTryCandidate (hashFn : Str → Str) (urlFetch : Str → Except Unit Str)
    (jsonLoads : Str → Option Str) (data_hash : Str) (data_id : Option Str)
    (zonefile : Bool) (fqu : Option Str) (deserialize : Bool)
    (c : Str ⊕ Driver) : Option Str :=
  match getImmFetch urlFetch data_hash data_id zonefile fqu c with
  | none => none
  | some d =>
    if hashFn d = data_hash then
      (if deserialize then jsonLoads d else some d)
    else none

/-- The trial loop is the first success over the candidates in order. -/
theorem getImmLoop_eq_findSome (hashFn : Str → Str)
    (urlFetch : Str → Except Unit Str) (jsonLoads : Str → Option Str)
    (data_hash : Str) (data_id : Option Str) (zonefile : Bool)
    (fqu : Option Str) (deserialize : Bool) :
    ∀ cands : List (Str ⊕ Driver),
      getImmLoop hashFn urlFetch jsonLoads data_hash data_id zonefile fqu
        deserialize cands =
      cands.findSome? (specTryCandidate hashFn urlFetch jsonLoads data_hash
        data_id zonefile fqu deserialize) := by
  intro cands
  induction cands with
  | nil => simp [getImmLoop]
  | cons c rest ih =>
    unfold getImmLoop
    rw [List.findSome?_cons]
    cases hf : getImmFetch urlFetch data_hash data_id zonefile fqu c with
    | none => dsimp only; simp [specTryCandidate, hf, ih]
    | some d =>
      dsimp only
      by_cases hh : hashFn d = data_hash
      · rw [if_neg (not_not_intro hh)]
        by_cases hdes : deserialize = true
        · subst hdes
          rw [if_pos rfl]
          cases hj : jsonLoads d with
          | none => simp [specTryCandidate, hf, hh, hj, ih]
          | some dd => simp [specTryCandidate, hf, hh, hj]
        · rw [if_neg hdes]
          simp [specTryCandidate, hf, hh, hdes]
      · rw [if_pos hh]
        simp [specTryCandidate, hf, hh, ih]

/-- C9 counterexample: with zero registered drivers and a URL hint whose
fetch returns bytes matching the requested hash, `get_immutable_data` returns
`None` without the hint ever being tried — the same trial loop run on just
the hint candidate succeeds — refuting "None is returned only after every
candidate (including the URL hint) has been tried and failed". -/
theorem C9_counterexample :
    get_immutable_data (fun _ => "H".toList) (fun _ => .ok "D".toList)
        (fun _ => none) "H".toList (some "u".toList) none none false false
        none [] = none ∧
    getImmLoop (fun _ => "H".toList) (fun _ => .ok "D".toList) (fun _ => none)
        "H".toList none false none false [Sum.inl "u".toList] =
      some "D".toList :=
  ⟨rfl, rfl⟩

/-- C9 (amended): when at least one driver is registered, `get_immutable_data`
is the first success over the candidates in order — the URL hint first (when
present), then the selected drivers (registration order without a whitelist;
with a whitelist, whitelist-name order, each name expanded in registration
order) — so `None` is then returned only with every candidate tried and
failed; with zero registered drivers it returns `None` immediately, without
trying the URL hint. -/
theorem C9_trial_order (hashFn : Str → Str) (urlFetch : Str → Except Unit Str)
    (jsonLoads : Str → Option Str) (data_hash : Str) (data_url : Option Str)
    (fqu data_id : Option Str) (zonefile deserialize : Bool)
    (drivers : Option (List Str)) (storage_handlers : List Driver) :
    get_immutable_data hashFn urlFetch jsonLoads data_hash data_url fqu data_id
        zonefile deserialize drivers storage_handlers =
      if storage_handlers.isEmpty then none
      else
        (getImmCandidates data_url (selectHandlers drivers storage_handlers)).findSome?
          (specTryCandidate hashFn urlFetch jsonLoads data_hash data_id
            zonefile fqu deserialize) := by
  unfold get_immutable_data
  cases storage_handlers with
  | nil => rfl
  | cons d t =>
    rw [if_neg (by simp), if_neg (by simp)]
    exact getImmLoop_eq_findSome hashFn urlFetch jsonLoads data_hash data_id
      zonefile fqu deserialize _

/-! ## Envelope character lemmas and the v2 round trip -/

theorem b64c_ge (v : Nat) (h : ¬ v < 64) : b64c v = 'A' := by
  unfold b64c
  exact List.getD_eq_default _ _ (by rw [(by decide : b64alphabet.length = 64)]; omega)

theorem b64c_ne_dot (v : Nat) : b64c v ≠ '.' := by
  by_cases hv : v < 64
  · exact (by decide : ∀ w : Nat, w < 64 → b64c w ≠ '.') v hv
  · rw [b64c_ge v hv]; decide

theorem b64val_b64c_isSome (v : Nat) : (b64val (b64c v)).isSome = true := by
  by_cases hv : v < 64
  · rw [b64val_b64c v hv]; rfl
  · rw [b64c_ge v hv]; decide

/-- Every character of a base64 encoding is an alphabet character or `=`. -/
theorem b64encode_chars :
    ∀ (l : List Nat) (c : Char), c ∈ b64encodeList l → (∃ v, c = b64c v) ∨ c = '='
  | [], _ => by simp [b64encodeList]
  | [a], c => by
    intro hc
    simp only [b64encodeList, List.mem_cons] at hc
    rcases hc with rfl | rfl | rfl | rfl | hc
    · exact Or.inl ⟨_, rfl⟩
    · exact Or.inl ⟨_, rfl⟩
    · exact Or.inr rfl
    · exact Or.inr rfl
    · simp at hc
  | [a, b], c => by
    intro hc
    simp only [b64encodeList, List.mem_cons] at hc
    rcases hc with rfl | rfl | rfl | rfl | hc
    · exact Or.inl ⟨_, rfl⟩
    · exact Or.inl ⟨_, rfl⟩
    · exact Or.inl ⟨_, rfl⟩
    · exact Or.inr rfl
    · simp at hc
  | a :: b :: d :: rest, c => by
    intro hc
    simp only [b64encodeList, List.mem_cons] at hc
    rcases hc with rfl | rfl | rfl | rfl | hc
    · exact Or.inl ⟨_, rfl⟩
    · exact Or.inl ⟨_, rfl⟩
    · exact Or.inl ⟨_, rfl⟩
    · exact Or.inl ⟨_, rfl⟩
    · exact b64encode_chars rest c hc

theorem b64encode_no_dot (l : List Nat) : '.' ∉ b64encodeList l := by
  intro hmem
  rcases b64encode_chars l '.' hmem with ⟨v, hv⟩ | hpad
  · exact b64c_ne_dot v hv.symm
  · exact absurd hpad (by decide)

theorem b64encode_shape (l : List Nat) : isB64Shape (b64encodeList l) = true := by
  unfold isB64Shape
  rw [List.all_eq_true]
  intro c hc
  rcases b64encode_chars l c hc with ⟨v, rfl⟩ | rfl
  · simp [b64val_b64c_isSome v]
  · decide

theorem isHexRe_no_dot (s : Str) (h : isHexRe s = true) : '.' ∉ s := by
  intro hm
  unfold isHexRe at h
  rw [Bool.and_eq_true, List.all_eq_true] at h
  exact absurd (h.2 '.' hm) (by decide)

theorem strBytes_lt_of_b64 (X : List Nat) (hX : ∀ b ∈ X, b < 256) :
    ∀ b ∈ strBytes (b64encodeList X), b < 256 := by
  intro b hb
  unfold strBytes at hb
  rcases List.mem_map.1 hb with ⟨c, hc, rfl⟩
  exact b64encode_ascii X hX c hc

/-- Verification succeeds structurally on a well-formed encoded signature:
it decodes the 64 bytes, recovers `r` and `s`, parses the public-key point
and hands everything to the curve oracle. -/
theorem verify_raw_data_roundtrip (C : CryptoOracle) (data_txt pubN sig : Str)
    (r s px py : Nat)
    (hsig : sig = b64encodeList (hexDecodeBytes (natToHexBE 64 r ++ natToHexBE 64 s)))
    (hnc : C.isHexCompressed pubN = false)
    (h130 : pubN.length = 130) (hr : r < 16 ^ 64) (hs2 : s < 16 ^ 64)
    (hx : hexToNat? ((pubN.drop 2).take 64) = some px)
    (hy : hexToNat? ((pubN.drop 2).drop 64) = some py) :
    verify_raw_data C data_txt pubN sig =
      .ok (C.ecdsaVerify (r, s) data_txt (px, py)) := by
  rw [hsig]
  unfold verify_raw_data
  rw [hnc]
  simp only [if_neg (by decide : ¬ (false = true))]
  rw [if_pos h130]
  rw [b64decode_b64encode _ (hexDecodeBytes_lt _)]
  dsimp only
  rw [if_pos (siglen_64 r s)]
  rw [sighex_roundtrip, sighex_take, sighex_drop]
  rw [hexToNat_natToHexBE_of_lt _ _ hr, hexToNat_natToHexBE_of_lt _ _ hs2]
  rw [hx, hy]

/-- The exact envelope emitted by `serialize_mutable_data` with
`profile=False`: the signature field is the base64 of the (already base64)
output of `sign_raw_data`. -/
theorem serialize_mutable_data_v2_eq {α : Type} (C : CryptoOracle)
    (J : JsonOracle α) (payload : α) (priv pub : Str) (pk_i : Nat)
    (hlen : ¬ priv.length > 64) (hpk : hexToNat? priv = some pk_i)
    (hr : (signRS C (J.dumps payload) pk_i).1 < 16 ^ 64)
    (hs2 : (signRS C (J.dumps payload) pk_i).2 < 16 ^ 64) :
    serialize_mutable_data C J payload priv pub false =
      .ok ("bsk2.".toList ++ pub ++ '.' ::
        (b64encodeStr (b64encodeList (hexDecodeBytes
          (natToHexBE 64 (signRS C (J.dumps payload) pk_i).1 ++
            natToHexBE 64 (signRS C (J.dumps payload) pk_i).2))) ++
          '.' :: J.dumps payload)) := by
  unfold serialize_mutable_data
  rw [if_neg (by decide : ¬ (false = true))]
  dsimp only
  rw [sign_raw_data_eq C (J.dumps payload) priv pk_i hlen hpk hr hs2]

/-- The pubkey path of the v2 parser accepts a well-formed envelope whose
embedded key equals the expected key and whose signature the oracle accepts,
returning the parsed payload. -/
theorem parse_v2_pubkey_path {α : Type} (C : CryptoOracle) (J : JsonOracle α)
    (pub sig data_txt : Str) (payload : α) (r s px py : Nat)
    (hsig : sig = b64encodeList (hexDecodeBytes (natToHexBE 64 r ++ natToHexBE 64 s)))
    (hr : r < 16 ^ 64) (hs2 : s < 16 ^ 64)
    (hpub : isHexRe pub = true)
    (hnc : C.isHexCompressed
      (if C.isHexCompressed pub then C.decompressPub pub else pub) = false)
    (h130 : (if C.isHexCompressed pub then C.decompressPub pub else pub).length = 130)
    (hx : hexToNat? (((if C.isHexCompressed pub then C.decompressPub pub else pub).drop 2).take 64) = some px)
    (hy : hexToNat? (((if C.isHexCompressed pub then C.decompressPub pub else pub).drop 2).drop 64) = some py)
    (hverify : C.ecdsaVerify (r, s) data_txt (px, py) = true)
    (hloads : J.loads data_txt = some payload) :
    parse_mutable_data_v2 C J (pub ++ '.' :: (b64encodeStr sig ++ '.' :: data_txt))
      (some pub) none = .ok (some payload) := by
  have hbytes : ∀ b ∈ strBytes sig, b < 256 := by
    rw [hsig]; exact strBytes_lt_of_b64 _ (hexDecodeBytes_lt _)
  have hnodot : '.' ∉ b64encodeStr sig := b64encode_no_dot (strBytes sig)
  unfold parse_mutable_data_v2
  rw [pySplitDot2_fields pub (b64encodeStr sig) data_txt
    (isHexRe_no_dot pub hpub) hnodot]
  dsimp only
  have hshape : isB64Shape (b64encodeStr sig) = true := b64encode_shape (strBytes sig)
  have hdec : b64decodeList (b64encodeStr sig) = some (strBytes sig) :=
    b64decode_b64encode _ hbytes
  rw [if_neg (not_not_intro hpub), if_neg (not_not_intro hshape)]
  rw [hdec]
  dsimp only
  rw [bytesToStr_strBytes]
  rw [if_pos rfl]
  rw [verify_raw_data_roundtrip C data_txt _ sig r s px py hsig hnc h130 hr hs2 hx hy]
  rw [hverify]
  dsimp only
  rw [hloads]

set_option maxRecDepth 100000 in
set_option maxHeartbeats 4000000 in
/-- C4 counterexample: the claim says the v2 signature field is the base64 of
the 64-byte `r||s` signature; at a concrete signing oracle returning
`(1, 1)`, the emitted envelope differs from that format — the field is
base64-encoded twice. -/
theorem C4_counterexample :
    serialize_mutable_data testCrypto testJson (42 : Nat) "01".toList testPub
        false ≠
      .ok ("bsk2.".toList ++ testPub ++ '.' ::
        (b64encodeList (hexDecodeBytes (natToHexBE 64 1 ++ natToHexBE 64 1)) ++
          '.' :: "42".toList)) := by
  intro hcontra
  have hser : serialize_mutable_data testCrypto testJson (42 : Nat) "01".toList
      testPub false =
      .ok ("bsk2.".toList ++ testPub ++ '.' ::
        (b64encodeStr (b64encodeList (hexDecodeBytes
          (natToHexBE 64 1 ++ natToHexBE 64 1))) ++ '.' :: "42".toList)) := rfl
  rw [hser] at hcontra
  exact absurd (Except.ok.inj hcontra) (by decide)

/-- C4 (amended): the v2 envelope emitted with `profile=False` is
`"bsk2." + pubkey_hex + "." + base64(base64(sig_bin)) + "." + json_text`,
where `sig_bin` is the 64-byte big-endian `r||s` canonicalized ECDSA
signature over the canonical JSON text: `sign_raw_data` already returns
base64 of `sig_bin`, and `serialize_mutable_data` base64-encodes that string
again for the wire field. -/
theorem C4_envelope_format {α : Type} (C : CryptoOracle) (J : JsonOracle α)
    (payload : α) (priv pub : Str) (pk_i : Nat)
    (hlen : ¬ priv.length > 64) (hpk : hexToNat? priv = some pk_i)
    (hr : (signRS C (J.dumps payload) pk_i).1 < 16 ^ 64)
    (hs2 : (signRS C (J.dumps payload) pk_i).2 < 16 ^ 64) :
    serialize_mutable_data C J payload priv pub false =
      .ok ("bsk2.".toList ++ pub ++ '.' ::
        (b64encodeStr (b64encodeList (hexDecodeBytes
          (natToHexBE 64 (signRS C (J.dumps payload) pk_i).1 ++
            natToHexBE 64 (signRS C (J.dumps payload) pk_i).2))) ++
          '.' :: J.dumps payload)) :=
  serialize_mutable_data_v2_eq C J payload priv pub pk_i hlen hpk hr hs2

set_option maxRecDepth 100000 in
set_option maxHeartbeats 4000000 in
/-- Witness for the amended C4 at the concrete fixtures. -/
theorem C4_envelope_format_witness :
    serialize_mutable_data testCrypto testJson (42 : Nat) "01".toList testPub
        false =
      .ok ("bsk2.".toList ++ testPub ++ '.' ::
        (b64encodeStr (b64encodeList (hexDecodeBytes
          (natToHexBE 64 (signRS testCrypto (testJson.dumps 42) 1).1 ++
            natToHexBE 64 (signRS testCrypto (testJson.dumps 42) 1).2))) ++
          '.' :: testJson.dumps 42)) :=
  C4_envelope_format testCrypto testJson 42 "01".toList testPub 1
    (by decide) (by decide) (by decide) (by decide)

/-- C7: the v2 encode/decode round trip —
`decode(encode(payload, priv, pub, profile=False), pub, None)` returns the
payload, for every signing/verifying oracle pair consistent on the key pair
(the oracle accepts the canonicalized signature `signRS` over the canonical
JSON text under the point parsed from `pub`), every payload whose canonical
JSON text parses back to it, and every well-formed hex key pair. -/
theorem C7_roundtrip {α : Type} (C : CryptoOracle) (J : JsonOracle α)
    (payload : α) (priv pub : Str) (pk_i px py : Nat)
    (hlen : ¬ priv.length > 64) (hpk : hexToNat? priv = some pk_i)
    (hr : (signRS C (J.dumps payload) pk_i).1 < 16 ^ 64)
    (hs2 : (signRS C (J.dumps payload) pk_i).2 < 16 ^ 64)
    (hpub : isHexRe pub = true)
    (hnc : C.isHexCompressed
      (if C.isHexCompressed pub then C.decompressPub pub else pub) = false)
    (h130 : (if C.isHexCompressed pub then C.decompressPub pub else pub).length = 130)
    (hx : hexToNat? (((if C.isHexCompressed pub then C.decompressPub pub else pub).drop 2).take 64) = some px)
    (hy : hexToNat? (((if C.isHexCompressed pub then C.decompressPub pub else pub).drop 2).drop 64) = some py)
    (hverify : C.ecdsaVerify (signRS C (J.dumps payload) pk_i)
      (J.dumps payload) (px, py) = true)
    (hloads : J.loads (J.dumps payload) = some payload) :
    (serialize_mutable_data C J payload priv pub false).bind
        (fun env => parse_mutable_data C J env (some pub) none) =
      .ok (some payload) := by
  rw [serialize_mutable_data_v2_eq C J payload priv pub pk_i hlen hpk hr hs2]
  dsimp only [Except.bind]
  unfold parse_mutable_data
  rw [List.append_assoc]
  rw [List.take_left' (by rfl : ("bsk2.".toList : Str).length = 5)]
  rw [if_pos rfl]
  rw [List.drop_left' (by rfl : ("bsk2.".toList : Str).length = 5)]
  exact parse_v2_pubkey_path C J pub _ (J.dumps payload) payload
    (signRS C (J.dumps payload) pk_i).1 (signRS C (J.dumps payload) pk_i).2
    px py rfl hr hs2 hpub hnc h130 hx hy hverify hloads

set_option maxRecDepth 100000 in
set_option maxHeartbeats 4000000 in
/-- Witness for C7 at the concrete fixtures. -/
theorem C7_roundtrip_witness :
    (serialize_mutable_data testCrypto testJson (42 : Nat) "01".toList testPub
        false).bind
        (fun env => parse_mutable_data testCrypto testJson env (some testPub) none) =
      .ok (some 42) :=
  C7_roundtrip testCrypto testJson 42 "01".toList testPub 1 0 0
    (by decide) (by decide) (by decide) (by decide) (by decide) rfl
    (by decide) (by decide) (by decide) rfl rfl

end Blockstack
